import Mathlib

/-!
# A formal model of the ocicni attachment engine

This development embeds the core of the cri-o/ocicni repository — the
network-configuration loader, the runtime-conf builder, and the
attachment lifecycle engine (ADD / DEL / status over plugin chains) —
as executable Lean definitions, and proves the repository's documented
properties about them.

The repository snapshot contains the package's test suite
(`pkg/ocicni/ocicni_test.go`) and the CLI wrapper, but not the
implementation file itself; the definitions below are therefore
modelled from the specification, with every behavior that the test
suite pins down (argument-list shapes, result ordering, duplicate-name
policy, cache-driven teardown order) following the test suite's
assertions.  Plugin invocations are modelled by a pure executor
function `Invocation → Except String CNIResult`; the list of
invocations an operation issues is returned as an explicit trace.
-/

namespace Ocicni

/-! ## Byte-lexicographic filename order

Configuration files are discovered by sorting filenames with Go's
`sort.Strings`, i.e. byte-lexicographically.  For ASCII filenames the
byte order coincides with the order of Unicode scalar values, so we
compare the character lists of the strings. -/

def charListLe : List Char → List Char → Bool
  | [], _ => true
  | _ :: _, [] => false
  | a :: as, b :: bs =>
    if a < b then true
    else if b < a then false
    else charListLe as bs

/-- Byte-lexicographic (ASCII-betical) order on filenames. -/
def fileNameLe (a b : String) : Prop := charListLe a.data b.data = true

instance : DecidableRel fileNameLe :=
  fun a b => inferInstanceAs (Decidable (charListLe a.data b.data = true))

/-! ## Association-list lookup (Go map lookup) -/

def alookup {α : Type} (key : String) : List (String × α) → Option α
  | [] => none
  | (k, v) :: rest => if k = key then some v else alookup key rest

/-! ## Splitting character lists (for IP / MAC parsing) -/

def splitChars (sep : Char) : List Char → List (List Char)
  | [] => [[]]
  | c :: rest =>
    match splitChars sep rest with
    | [] => [[]]
    | g :: gs => if c = sep then [] :: g :: gs else (c :: g) :: gs

/-! ## IP address parsing

Modelled from the spec: the implementation file validating the
requested IP via Go's `net.ParseIP` is not in the snapshot; the parser
below follows the spec's requirement that the IP parse as a v4 or v6
address (dotted-quad decimal with fields 0–255 and no leading zeros,
or colon-separated 16-bit hex groups with at most one `::`
compression and an optional trailing embedded v4 address). -/

def decFold : List Char → Nat → Option Nat
  | [], acc => some acc
  | c :: rest, acc =>
    if '0' ≤ c ∧ c ≤ '9' then decFold rest (acc * 10 + (c.toNat - 48)) else none

def parseIPv4Field (cs : List Char) : Option Nat :=
  match cs with
  | [] => none
  | ['0'] => some 0
  | '0' :: _ :: _ => none
  | _ =>
    match decFold cs 0 with
    | some v => if v ≤ 255 ∧ cs.length ≤ 3 then some v else none
    | none => none

def parseIPv4 (s : String) : Option (List Nat) :=
  let parts := splitChars '.' s.data
  if parts.length = 4 then parts.mapM parseIPv4Field else none

def hexVal (c : Char) : Option Nat :=
  if '0' ≤ c ∧ c ≤ '9' then some (c.toNat - 48)
  else if 'a' ≤ c ∧ c ≤ 'f' then some (c.toNat - 87)
  else if 'A' ≤ c ∧ c ≤ 'F' then some (c.toNat - 55)
  else none

def hexFold : List Char → Nat → Option Nat
  | [], acc => some acc
  | c :: rest, acc =>
    match hexVal c with
    | some v => hexFold rest (acc * 16 + v)
    | none => none

def parseHexGroup (cs : List Char) : Option Nat :=
  if cs = [] ∨ cs.length > 4 then none else hexFold cs 0

/-- Split at the first `::`, returning the parts before and after it. -/
def splitAtColonColon : List Char → Option (List Char × List Char)
  | [] => none
  | a :: rest =>
    if a = ':' then
      match rest with
      | ':' :: rest2 => some ([], rest2)
      | _ => (splitAtColonColon rest).map (fun p => (a :: p.1, p.2))
    else (splitAtColonColon rest).map (fun p => (a :: p.1, p.2))

def hasColonColon : List Char → Bool
  | [] => false
  | ':' :: ':' :: _ => true
  | _ :: rest => hasColonColon rest

def parseV6Part (cs : List Char) (isLast : Bool) : Option (List Nat) :=
  match parseHexGroup cs with
  | some g => some [g]
  | none =>
    if isLast then
      match parseIPv4 (String.mk cs) with
      | some [a, b, c, d] => some [a * 256 + b, c * 256 + d]
      | _ => none
    else none

def parseV6Parts : List (List Char) → Option (List Nat)
  | [] => some []
  | [last] => parseV6Part last true
  | p :: rest =>
    match parseHexGroup p, parseV6Parts rest with
    | some g, some gs => some (g :: gs)
    | _, _ => none

def parseIPv6 (s : String) : Option (List Nat) :=
  let cs := s.data
  match splitAtColonColon cs with
  | none =>
    match parseV6Parts (splitChars ':' cs) with
    | some gs => if gs.length = 8 then some gs else none
    | none => none
  | some (pre, post) =>
    if hasColonColon post then none
    else
      let preGroups := if pre = [] then some [] else parseV6Parts (splitChars ':' pre)
      let postGroups := if post = [] then some [] else parseV6Parts (splitChars ':' post)
      match preGroups, postGroups with
      | some g1, some g2 =>
        if g1.length + g2.length ≤ 7 then
          some (g1 ++ List.replicate (8 - g1.length - g2.length) 0 ++ g2)
        else none
      | _, _ => none

def parseIP (s : String) : Option (List Nat) :=
  match parseIPv4 s with
  | some v => some v
  | none => parseIPv6 s

/-! ## MAC address parsing

Modelled from the spec: the implementation validating the requested
MAC is not in the snapshot; per the spec the MAC must parse as a
6-byte hardware address (six two-hex-digit groups separated by `:` or
by `-`). -/

def parseHexPair (cs : List Char) : Option Nat :=
  match cs with
  | [a, b] =>
    match hexVal a, hexVal b with
    | some x, some y => some (x * 16 + y)
    | _, _ => none
  | _ => none

def parseMAC (s : String) : Option (List Nat) :=
  let groupsColon := splitChars ':' s.data
  if groupsColon.length = 6 then groupsColon.mapM parseHexPair
  else
    let groupsDash := splitChars '-' s.data
    if groupsDash.length = 6 then groupsDash.mapM parseHexPair else none

/-! ## Data model -/

structure NetConf where
  name : String
  pluginType : String
  cniVersion : String
deriving Repr, DecidableEq, Inhabited

/-- One file of the configuration directory, with the result of
parsing it (`none` when the file is unparseable and skipped). -/
structure ConfFile where
  fileName : String
  parsed : Option NetConf
deriving Repr, DecidableEq, Inhabited

structure Network where
  name : String
  fileName : String
  conf : NetConf
deriving Repr, DecidableEq, Inhabited

structure PortMapping where
  hostPort : Int
  containerPort : Int
  protocol : String
  hostIP : String
deriving Repr, DecidableEq

structure BandwidthConfig where
  ingressRate : Nat
  ingressBurst : Nat
  egressRate : Nat
  egressBurst : Nat
deriving Repr, DecidableEq

structure IpRange where
  subnet : String
  rangeStart : String
  rangeEnd : String
  gateway : String
deriving Repr, DecidableEq

structure RuntimeConfig where
  ip : String := ""
  mac : String := ""
  portMappings : List PortMapping := []
  bandwidth : Option BandwidthConfig := none
  ipRanges : List (List IpRange) := []
deriving Repr, DecidableEq, Inhabited

structure NetAttachment where
  name : String
  ifname : String := ""
deriving Repr, DecidableEq, Inhabited

structure PodNetwork where
  name : String
  namespaceName : String
  id : String
  netNS : String
  networks : List NetAttachment := []
  runtimeConfig : List (String × RuntimeConfig) := []
deriving Repr, DecidableEq, Inhabited

structure CNIResult where
  cniVersion : String := ""
  interfaces : List (String × String) := []
  ips : List String := []
deriving Repr, DecidableEq, Inhabited

structure NetResult where
  name : String
  ifname : String
  result : CNIResult
deriving Repr, DecidableEq, Inhabited

/-- A registry snapshot: the `name → Network` map (as an association
list in loader insertion order) plus the default-network name. -/
structure Registry where
  netMap : List (String × Network)
  defaultName : String
deriving Repr, DecidableEq, Inhabited

/-! ## Config loader

Modelled from the spec: the loader (`loadNetworks`) is not in the
snapshot.  Per the spec and the test suite it sorts filenames
byte-lexicographically, parses each file (skipping unparseable ones),
inserts under the declared network name with a first-occurrence-wins
duplicate policy, and takes the first successfully inserted name as
the default.  A directory listing is given as the list of files with
their parse results; an I/O failure listing the directory is the only
error. -/

def confFileLe (a b : ConfFile) : Prop := fileNameLe a.fileName b.fileName

instance : DecidableRel confFileLe :=
  fun a b => inferInstanceAs (Decidable (fileNameLe a.fileName b.fileName))

def sortConfFiles (files : List ConfFile) : List ConfFile :=
  List.insertionSort confFileLe files

def loadNetworksLoop :
    List ConfFile → List (String × Network) → String → List (String × Network) × String
  | [], acc, dflt => (acc, dflt)
  | fl :: rest, acc, dflt =>
    match fl.parsed with
    | none => loadNetworksLoop rest acc dflt
    | some c =>
      if (alookup c.name acc).isSome then loadNetworksLoop rest acc dflt
      else
        loadNetworksLoop rest (acc ++ [(c.name, { name := c.name, fileName := fl.fileName, conf := c })])
          (if dflt = "" then c.name else dflt)

def loadNetworks (listing : Except String (List ConfFile)) :
    Except String (List (String × Network) × String) :=
  match listing with
  | .error e => .error e
  | .ok files => .ok (loadNetworksLoop (sortConfFiles files) [] "")

/-! ## Readiness / status

Modelled from the spec: `Status` is not in the snapshot; per the spec
it reports not-ready exactly when the default network cannot be
resolved in the current registry snapshot. -/

def status (reg : Registry) : Except String Unit :=
  match alookup reg.defaultName reg.netMap with
  | none => .error "cni config uninitialized"
  | some _ => .ok ()

/-! ## Runtime-conf builder

Modelled from the spec: `buildCNIRuntimeConf` is not in the snapshot.
The argument list follows the assertions of the repository's test
(`ocicni_test.go`, "build different runtime configs"): four base args
— IgnoreUnknown, K8S_POD_NAMESPACE, K8S_POD_NAME,
K8S_POD_INFRA_CONTAINER_ID — then optionally IP and then MAC, so that
a config with a valid IP yields five args with the IP at index 4.
Empty collection capability fields are dropped, not emitted as
empty. -/

structure RuntimeConf where
  containerID : String
  netNS : String
  cacheDir : String
  ifName : String
  args : List (String × String)
  capPortMappings : Option (List PortMapping) := none
  capBandwidth : Option BandwidthConfig := none
  capIpRanges : Option (List (List IpRange)) := none
deriving Repr, DecidableEq

/-- The runtime conf produced for a valid RuntimeConfig. -/
def mkRuntimeConf (cacheDir : String) (pod : PodNetwork) (ifName : String)
    (runtimeConfig : RuntimeConfig) : RuntimeConf :=
  { containerID := pod.id
    netNS := pod.netNS
    cacheDir := cacheDir
    ifName := ifName
    args :=
      [("IgnoreUnknown", "1"), ("K8S_POD_NAMESPACE", pod.namespaceName),
       ("K8S_POD_NAME", pod.name), ("K8S_POD_INFRA_CONTAINER_ID", pod.id)]
      ++ (if runtimeConfig.ip ≠ "" then [("IP", runtimeConfig.ip)] else [])
      ++ (if runtimeConfig.mac ≠ "" then [("MAC", runtimeConfig.mac)] else [])
    capPortMappings :=
      if runtimeConfig.portMappings = [] then none else some runtimeConfig.portMappings
    capBandwidth := runtimeConfig.bandwidth
    capIpRanges :=
      if runtimeConfig.ipRanges = [] then none else some runtimeConfig.ipRanges }

def buildCNIRuntimeConf (cacheDir : String) (pod : PodNetwork) (ifName : String)
    (runtimeConfig : RuntimeConfig) : Except String RuntimeConf :=
  if runtimeConfig.ip ≠ "" ∧ (parseIP runtimeConfig.ip).isNone then
    .error ("unable to parse IP address " ++ runtimeConfig.ip)
  else if runtimeConfig.mac ≠ "" ∧ (parseMAC runtimeConfig.mac).isNone then
    .error ("unable to parse MAC address " ++ runtimeConfig.mac)
  else
    .ok (mkRuntimeConf cacheDir pod ifName runtimeConfig)

/-! ## Plugin invocations

A plugin invocation is modelled by the data the engine passes to the
embedded plugin-execution library: the CNI command, the network name,
and the runtime conf (container id, netns path, interface name —
delivered to the plugin as CNI_CONTAINERID, CNI_NETNS, CNI_IFNAME —
and the CNI args).  The out-of-process plugin itself is modelled by a
pure executor function; the list of invocations an operation issues
is its observable trace. -/

inductive CNICommand
  | add
  | del
  | check
  | version
deriving Repr, DecidableEq

structure Invocation where
  command : CNICommand
  networkName : String
  containerID : String
  netNS : String
  ifName : String
  args : List (String × String)
deriving Repr, DecidableEq

/-- The environment a pod operation runs against: the plugin executor
and whether bringing up the loopback interface in the pod's netns
succeeds. -/
structure ExecEnv where
  exec : Invocation → Except String CNIResult
  loopbackOk : Bool := true

/-- One file of the on-disk CNI attachment cache
(`<cacheDir>/results/<networkName>-<containerID>-<ifname>`), as read
by the cache bridge. -/
structure CacheEntry where
  networkName : String
  containerID : String
  ifName : String
  result : CNIResult
deriving Repr, DecidableEq, Inhabited

abbrev Cache := List CacheEntry

def cacheFileName (e : CacheEntry) : String :=
  e.networkName ++ "-" ++ e.containerID ++ "-" ++ e.ifName

def cacheEntryLe (a b : CacheEntry) : Prop := fileNameLe (cacheFileName a) (cacheFileName b)

instance : DecidableRel cacheEntryLe :=
  fun a b => inferInstanceAs (Decidable (fileNameLe (cacheFileName a) (cacheFileName b)))

/-- The cache bridge: all cache entries recorded for a container, in
the directory-listing (byte-lexicographic filename) order. -/
def cachedAttachments (cache : Cache) (containerID : String) : List CacheEntry :=
  List.insertionSort cacheEntryLe (cache.filter (fun e => e.containerID == containerID))

def cacheFind (cache : Cache) (netName containerID ifname : String) : Option CacheEntry :=
  match cache with
  | [] => none
  | e :: rest =>
    if e.networkName = netName ∧ e.containerID = containerID ∧ e.ifName = ifname then some e
    else cacheFind rest netName containerID ifname

/-! ## Attachment resolution and interface-name defaulting -/

def mapIdxFrom {α β : Type} (f : Nat → α → β) : Nat → List α → List β
  | _, [] => []
  | i, a :: as => f i a :: mapIdxFrom f (i + 1) as

def ethName (i : Nat) : String := "eth" ++ toString i

/-- Positional interface-name defaulting: an omitted interface name
becomes eth0, eth1, … by position in the attachment list. -/
def resolveIfName (i : Nat) (a : NetAttachment) : String :=
  if a.ifname = "" then ethName i else a.ifname

/-- The attachment list an operation targets: the pod's explicit
`Networks` list if given, otherwise exactly the default network. -/
def rawAttachments (reg : Registry) (pod : PodNetwork) : List NetAttachment :=
  if pod.networks = [] then [{ name := reg.defaultName, ifname := "" }] else pod.networks

def resolvedAttachments (reg : Registry) (pod : PodNetwork) : List NetAttachment :=
  mapIdxFrom (fun i a => { name := a.name, ifname := resolveIfName i a }) 0
    (rawAttachments reg pod)

def podRuntimeConfig (pod : PodNetwork) (netName : String) : RuntimeConfig :=
  match alookup netName pod.runtimeConfig with
  | some rc => rc
  | none => {}

def mkInvocation (cmd : CNICommand) (pod : PodNetwork) (a : NetAttachment)
    (args : List (String × String)) : Invocation :=
  { command := cmd, networkName := a.name, containerID := pod.id, netNS := pod.netNS,
    ifName := a.ifname, args := args }

/-! ## setUp

Modelled from the spec: `SetUpPod` is not in the snapshot.  Per the
spec (§4.E), it first checks that every target network is present in
the registry, brings up the pod's loopback interface (failure is
fatal), then for each resolved attachment in order builds the runtime
conf and invokes the plugin chain's ADD; on any failure it invokes
DEL in reverse order for every previously-succeeded attachment,
ignoring DEL errors, and returns the original error.  On success each
attachment's result is recorded in the attachment cache. -/

def delArgs (cacheDir : String) (pod : PodNetwork) (a : NetAttachment) :
    List (String × String) :=
  match buildCNIRuntimeConf cacheDir pod a.ifname (podRuntimeConfig pod a.name) with
  | .ok rt => rt.args
  | .error _ => []

/-- The reverse-order unwind: DEL invocations for the
previously-succeeded attachments, last first. -/
def unwindInvocations (cacheDir : String) (pod : PodNetwork)
    (succeeded : List NetAttachment) : List Invocation :=
  succeeded.reverse.map (fun a => mkInvocation .del pod a (delArgs cacheDir pod a))

def mkCacheEntry (pod : PodNetwork) (a : NetAttachment) (r : CNIResult) : CacheEntry :=
  { networkName := a.name, containerID := pod.id, ifName := a.ifname, result := r }

def setUpLoop (env : ExecEnv) (cacheDir : String) (pod : PodNetwork) :
    List NetAttachment → List NetAttachment →
    List Invocation × Except String (List (NetAttachment × CNIResult)) × List CacheEntry
  | _, [] => ([], .ok [], [])
  | done, a :: rest =>
    match buildCNIRuntimeConf cacheDir pod a.ifname (podRuntimeConfig pod a.name) with
    | .error e => (unwindInvocations cacheDir pod done, .error e, [])
    | .ok rt =>
      match env.exec (mkInvocation .add pod a rt.args) with
      | .error e =>
        (mkInvocation .add pod a rt.args :: unwindInvocations cacheDir pod done, .error e, [])
      | .ok r =>
        (mkInvocation .add pod a rt.args :: (setUpLoop env cacheDir pod (done ++ [a]) rest).1,
         ((setUpLoop env cacheDir pod (done ++ [a]) rest).2.1).map (fun l => (a, r) :: l),
         mkCacheEntry pod a r :: (setUpLoop env cacheDir pod (done ++ [a]) rest).2.2)

/-- The outcome of a pod operation: the trace of plugin invocations it
issued, its result, and the attachment cache afterwards. -/
structure EngineOut (α : Type) where
  trace : List Invocation
  result : Except String α
  cache : Cache

def setUpPod (env : ExecEnv) (reg : Registry) (cacheDir : String) (pod : PodNetwork)
    (cache : Cache) : EngineOut (List NetResult) :=
  if (rawAttachments reg pod).all (fun a => (alookup a.name reg.netMap).isSome) then
    if env.loopbackOk then
      match (setUpLoop env cacheDir pod [] (resolvedAttachments reg pod)).2.1 with
      | .ok l =>
        ⟨(setUpLoop env cacheDir pod [] (resolvedAttachments reg pod)).1,
         .ok (l.map (fun p => ⟨p.1.name, p.1.ifname, p.2⟩)),
         (setUpLoop env cacheDir pod [] (resolvedAttachments reg pod)).2.2 ++ cache⟩
      | .error e =>
        ⟨(setUpLoop env cacheDir pod [] (resolvedAttachments reg pod)).1, .error e, cache⟩
    else ⟨[], .error "failed to set up loopback", cache⟩
  else ⟨[], .error "network not found in CNI configuration", cache⟩

/-! ## networkStatus

Modelled from the spec: `GetPodNetworkStatus` is not in the snapshot.
Per the spec it resolves attachments exactly as `setUpPod` does and
returns the cached per-attachment result; a missing cache entry is an
error. -/

def statusStep (pod : PodNetwork) (cache : Cache) (a : NetAttachment) :
    Except String NetResult :=
  match cacheFind cache a.name pod.id a.ifname with
  | some e => .ok ⟨a.name, a.ifname, e.result⟩
  | none => .error ("could not find cached result for network " ++ a.name)

def exceptMapM {α β : Type} (f : α → Except String β) : List α → Except String (List β)
  | [] => .ok []
  | a :: as =>
    match f a with
    | .error e => .error e
    | .ok b =>
      match exceptMapM f as with
      | .error e => .error e
      | .ok bs => .ok (b :: bs)

def getPodNetworkStatus (reg : Registry) (pod : PodNetwork) (cache : Cache) :
    Except String (List NetResult) :=
  if (rawAttachments reg pod).all (fun a => (alookup a.name reg.netMap).isSome) then
    exceptMapM (statusStep pod cache) (resolvedAttachments reg pod)
  else .error "network not found in CNI configuration"

/-! ## tearDown

Modelled from the spec: `TearDownPod` is not in the snapshot.  Per the
spec it uses the pod's explicit attachments if given, otherwise it
recovers the attachment set from the cache bridge by container id (in
cache-file order, which the test suite pins as CNI_IFNAME=eth0 then
CNI_IFNAME=eth1 for two cached entries).  Each attachment whose
configuration is available (in the registry or the cache) gets a DEL;
errors are collected without short-circuiting and the first error, if
any, is returned. -/

def tearDownAttachments (reg : Registry) (pod : PodNetwork) (cache : Cache) :
    List NetAttachment :=
  if pod.networks = [] then
    (cachedAttachments cache pod.id).map (fun e => { name := e.networkName, ifname := e.ifName })
  else resolvedAttachments reg pod

def tearDownLoop (env : ExecEnv) (reg : Registry) (cacheDir : String) (pod : PodNetwork)
    (cache : Cache) : List NetAttachment → List Invocation × List String
  | [] => ([], [])
  | a :: rest =>
    if (alookup a.name reg.netMap).isSome || (cacheFind cache a.name pod.id a.ifname).isSome then
      match buildCNIRuntimeConf cacheDir pod a.ifname (podRuntimeConfig pod a.name) with
      | .error e =>
        ((tearDownLoop env reg cacheDir pod cache rest).1,
         e :: (tearDownLoop env reg cacheDir pod cache rest).2)
      | .ok rt =>
        match env.exec (mkInvocation .del pod a rt.args) with
        | .error e =>
          (mkInvocation .del pod a rt.args :: (tearDownLoop env reg cacheDir pod cache rest).1,
           e :: (tearDownLoop env reg cacheDir pod cache rest).2)
        | .ok _ =>
          (mkInvocation .del pod a rt.args :: (tearDownLoop env reg cacheDir pod cache rest).1,
           (tearDownLoop env reg cacheDir pod cache rest).2)
    else
      ((tearDownLoop env reg cacheDir pod cache rest).1,
       ("failed to find network config for " ++ a.name) :: (tearDownLoop env reg cacheDir pod cache rest).2)

def tearDownPod (env : ExecEnv) (reg : Registry) (cacheDir : String) (pod : PodNetwork)
    (cache : Cache) : EngineOut Unit :=
  match (tearDownLoop env reg cacheDir pod cache (tearDownAttachments reg pod cache)).2 with
  | [] => ⟨(tearDownLoop env reg cacheDir pod cache (tearDownAttachments reg pod cache)).1,
          .ok (), cache⟩
  | e :: _ => ⟨(tearDownLoop env reg cacheDir pod cache (tearDownAttachments reg pod cache)).1,
              .error e, cache⟩

/-! ## GC payload

Modelled from the spec: the GC verb (§4.E `gc`) is not in the
snapshot at all.  Per the spec, the live-attachment payload passed to
the plugins applies the same positional interface-name defaulting as
setUp — so the plugin receives the same (containerID, ifname)
identities it saw at ADD time — and silently drops attachments whose
network is unknown to the registry. -/

def gcNormalize (containerID : String) (atts : List NetAttachment) :
    List (String × NetAttachment) :=
  mapIdxFrom (fun i a => (containerID, { name := a.name, ifname := resolveIfName i a })) 0 atts

def gcPayload (reg : Registry) (live : List (String × List NetAttachment)) :
    List (String × NetAttachment) :=
  (live.map (fun p => gcNormalize p.1 p.2)).flatten.filter
    (fun p => (alookup p.2.name reg.netMap).isSome)

/-! ## Observation helpers -/

/-- The externally observable identity of an invocation: the CNI
command, the network name, and the interface name (CNI_IFNAME). -/
def invSummary (v : Invocation) : CNICommand × String × String :=
  (v.command, v.networkName, v.ifName)

/-- The network a configuration file contributes to the registry. -/
def netFromFile (fl : ConfFile) : Option Network :=
  fl.parsed.map (fun c => { name := c.name, fileName := fl.fileName, conf := c })

/-- The registry entry a configuration file contributes. -/
def fileEntry (fl : ConfFile) : Option (String × Network) :=
  fl.parsed.map (fun c => (c.name, { name := c.name, fileName := fl.fileName, conf := c }))

/-- The first file of a listing whose parsed configuration declares
the network name `n`. -/
def findDeclaring (n : String) : List ConfFile → Option ConfFile
  | [] => none
  | fl :: rest =>
    match fl.parsed with
    | some c => if c.name = n then some fl else findDeclaring n rest
    | none => findDeclaring n rest

/-- A configuration file declares the network name `n`. -/
def declares (fl : ConfFile) (n : String) : Prop :=
  ∃ c, fl.parsed = some c ∧ c.name = n

instance (fl : ConfFile) (n : String) : Decidable (declares fl n) :=
  match h : fl.parsed with
  | some c =>
    if hc : c.name = n then .isTrue ⟨c, h, hc⟩
    else .isFalse (fun ⟨c2, h2, hc2⟩ => hc (by rw [h] at h2; cases h2; exact hc2))
  | none => .isFalse (fun ⟨c2, h2, _⟩ => by rw [h] at h2; cases h2)

/-! ## Concrete fixtures (mirroring the repository's test suite) -/

def sampleNetwork (fn n t : String) : Network := ⟨n, fn, ⟨n, t, "0.3.1"⟩⟩

def sampleReg : Registry :=
  { netMap := [("network2", sampleNetwork "10-network2.conf" "network2" "myplugin"),
               ("network3", sampleNetwork "20-network3.conf" "network3" "myplugin"),
               ("network4", sampleNetwork "30-network4.conf" "network4" "myplugin")],
    defaultName := "network2" }

def okResult (ifn : String) : CNIResult :=
  ⟨"0.3.1", [(ifn, "01:23:45:67:89:01")], ["1.1.1.2/24"]⟩

def okExec : Invocation → Except String CNIResult := fun inv => .ok (okResult inv.ifName)

def sampleEnv : ExecEnv := ⟨okExec, true⟩

def failNet4Exec : Invocation → Except String CNIResult := fun inv =>
  if inv.command == CNICommand.add && inv.networkName == "network4" then .error "plugin failed"
  else okExec inv

def failEnv : ExecEnv := ⟨failNet4Exec, true⟩

def samplePod : PodNetwork :=
  { name := "pod1", namespaceName := "namespace1", id := "1234567890",
    netNS := "/run/netns/x", networks := [{ name := "network3" }, { name := "network4" }] }

def defaultPod : PodNetwork :=
  { name := "pod1", namespaceName := "namespace1", id := "1234567890", netNS := "/run/netns/x" }

def invalidIpPod : PodNetwork :=
  { name := "pod1", namespaceName := "namespace1", id := "1234567890",
    netNS := "/run/netns/x", networks := [{ name := "network3" }],
    runtimeConfig := [("network3", { ip := "172.16" })] }

def sampleCache : Cache :=
  [⟨"network1", "1234567890", "eth0", ⟨"0.4.0", [], []⟩⟩,
   ⟨"network2", "1234567890", "eth1", ⟨"0.4.0", [], []⟩⟩]

def c1Results : List NetResult :=
  [⟨"network3", "eth0", okResult "eth0"⟩, ⟨"network4", "eth1", okResult "eth1"⟩]

def sampleFiles : List ConfFile :=
  [⟨"5-network1.conf", some ⟨"network1", "myplugin", "0.3.1"⟩⟩,
   ⟨"10-network2.conf", some ⟨"network2", "myplugin", "0.3.1"⟩⟩,
   ⟨"30-network3.conf", some ⟨"network3", "myplugin", "0.3.1"⟩⟩,
   ⟨"afdsfdsafdsa-network3.conf", some ⟨"network4", "myplugin", "0.3.1"⟩⟩]

def dupFiles : List ConfFile :=
  [⟨"10-network2.conf", some ⟨"network2", "myplugin", "0.3.1"⟩⟩,
   ⟨"30-network3.conf", some ⟨"network3", "myplugin", "0.3.1"⟩⟩,
   ⟨"5-network1.conf", some ⟨"network2", "myplugin2", "0.3.1"⟩⟩]

def sampleNetMap : List (String × Network) :=
  [("network2", ⟨"network2", "10-network2.conf", ⟨"network2", "myplugin", "0.3.1"⟩⟩),
   ("network3", ⟨"network3", "30-network3.conf", ⟨"network3", "myplugin", "0.3.1"⟩⟩),
   ("network1", ⟨"network1", "5-network1.conf", ⟨"network1", "myplugin", "0.3.1"⟩⟩),
   ("network4", ⟨"network4", "afdsfdsafdsa-network3.conf", ⟨"network4", "myplugin", "0.3.1"⟩⟩)]

def dupNetMap : List (String × Network) :=
  [("network2", ⟨"network2", "10-network2.conf", ⟨"network2", "myplugin", "0.3.1"⟩⟩),
   ("network3", ⟨"network3", "30-network3.conf", ⟨"network3", "myplugin", "0.3.1"⟩⟩)]

/-! ## Properties of the byte-lexicographic order -/

theorem charListLe_total : ∀ x y, charListLe x y = true ∨ charListLe y x = true := by
  intro x
  induction x with
  | nil => intro y; left; rfl
  | cons a as ih =>
    intro y
    cases y with
    | nil => right; rfl
    | cons b bs =>
      by_cases hab : a < b
      · left; simp [charListLe, hab]
      · by_cases hba : b < a
        · right; simp [charListLe, hba, hab]
        · rcases ih bs with h | h
          · left; simp [charListLe, hab, hba, h]
          · right; simp [charListLe, hab, hba, h]

theorem charListLe_trans : ∀ x y z, charListLe x y = true → charListLe y z = true →
    charListLe x z = true := by
  intro x
  induction x with
  | nil => intro y z _ _; rfl
  | cons a as ih =>
    intro y z hxy hyz
    cases y with
    | nil => simp [charListLe] at hxy
    | cons b bs =>
      cases z with
      | nil => simp [charListLe] at hyz
      | cons c cs =>
        simp only [charListLe] at hxy hyz ⊢
        by_cases hab : a < b
        · by_cases hbc : b < c
          · have : a < c := lt_trans hab hbc
            simp [this]
          · by_cases hcb : c < b
            · simp [hab, hbc, hcb] at hyz
            · have hbc2 : b = c := le_antisymm (not_lt.mp hcb) (not_lt.mp hbc)
              subst hbc2
              simp [hab]
        · by_cases hba : b < a
          · simp [hab, hba] at hxy
          · have hab2 : a = b := le_antisymm (not_lt.mp hba) (not_lt.mp hab)
            subst hab2
            simp only [lt_irrefl, if_false] at hxy
            by_cases hac : a < c
            · simp [hac]
            · by_cases hca : c < a
              · simp [hac, hca] at hyz
              · simp only [hac, hca, if_false] at hyz ⊢
                exact ih bs cs hxy hyz

theorem charListLe_antisymm : ∀ x y, charListLe x y = true → charListLe y x = true → x = y := by
  intro x
  induction x with
  | nil =>
    intro y _ hyx
    cases y with
    | nil => rfl
    | cons b bs => simp [charListLe] at hyx
  | cons a as ih =>
    intro y hxy hyx
    cases y with
    | nil => simp [charListLe] at hxy
    | cons b bs =>
      simp only [charListLe] at hxy hyx
      by_cases hab : a < b
      · simp [hab, lt_asymm hab] at hyx
      · by_cases hba : b < a
        · simp [hab, hba] at hxy
        · have hab2 : a = b := le_antisymm (not_lt.mp hba) (not_lt.mp hab)
          subst hab2
          simp only [lt_irrefl, if_false] at hxy hyx
          rw [ih bs hxy hyx]

theorem string_data_inj {a b : String} (h : a.data = b.data) : a = b := by
  cases a
  cases b
  exact congrArg String.mk h

theorem fileNameLe_antisymm {a b : String} (h1 : fileNameLe a b) (h2 : fileNameLe b a) :
    a = b :=
  string_data_inj (charListLe_antisymm a.data b.data h1 h2)

instance : IsTotal ConfFile confFileLe :=
  ⟨fun a b => charListLe_total a.fileName.data b.fileName.data⟩

instance : IsTrans ConfFile confFileLe :=
  ⟨fun _ _ _ h1 h2 => charListLe_trans _ _ _ h1 h2⟩

theorem confFileLe_antisymm_fileName {a b : ConfFile} (h1 : confFileLe a b)
    (h2 : confFileLe b a) : a.fileName = b.fileName :=
  fileNameLe_antisymm h1 h2

/-! ## List helper lemmas -/

theorem alookup_append {α : Type} (key : String) (l1 l2 : List (String × α)) :
    alookup key (l1 ++ l2) =
      match alookup key l1 with
      | some v => some v
      | none => alookup key l2 := by
  induction l1 with
  | nil => rfl
  | cons p rest ih =>
    cases p with
    | mk k v =>
      by_cases h : k = key
      · simp [alookup, h]
      · simp only [List.cons_append, alookup, if_neg h]
        exact ih

theorem mapIdxFrom_get? {α β : Type} (f : Nat → α → β) :
    ∀ (l : List α) (j i : Nat), (mapIdxFrom f j l).get? i = (l.get? i).map (f (j + i)) := by
  intro l
  induction l with
  | nil => intro j i; simp [mapIdxFrom]
  | cons a as ih =>
    intro j i
    cases i with
    | zero => simp [mapIdxFrom]
    | succ n =>
      simp only [mapIdxFrom, List.get?_cons_succ]
      have h2 : j + 1 + n = j + (n + 1) := by omega
      rw [ih (j + 1) n, h2]

theorem length_mapIdxFrom {α β : Type} (f : Nat → α → β) :
    ∀ (j : Nat) (l : List α), (mapIdxFrom f j l).length = l.length := by
  intro j l
  induction l generalizing j with
  | nil => rfl
  | cons a as ih => simp [mapIdxFrom, ih]

theorem mem_mapIdxFrom {α β : Type} {f : Nat → α → β} :
    ∀ {l : List α} {j : Nat} {b : β}, b ∈ mapIdxFrom f j l →
      ∃ i a, l.get? i = some a ∧ b = f (j + i) a := by
  intro l
  induction l with
  | nil => intro j b h; simp [mapIdxFrom] at h
  | cons a as ih =>
    intro j b h
    simp only [mapIdxFrom, List.mem_cons] at h
    rcases h with h | h
    · exact ⟨0, a, by simp, by simpa using h⟩
    · obtain ⟨i, x, hx, hb⟩ := ih h
      exact ⟨i + 1, x, by simpa using hx, by rw [hb]; congr 1; omega⟩

theorem cacheFind_append (l1 l2 : Cache) (n c i : String) :
    cacheFind (l1 ++ l2) n c i =
      match cacheFind l1 n c i with
      | some e => some e
      | none => cacheFind l2 n c i := by
  induction l1 with
  | nil => rfl
  | cons e rest ih =>
    by_cases h : e.networkName = n ∧ e.containerID = c ∧ e.ifName = i
    · simp [cacheFind, h]
    · simp only [List.cons_append, cacheFind, if_neg h]
      exact ih

theorem cacheFind_isSome_of_mem {cache : Cache} {e : CacheEntry} {n c i : String}
    (hm : e ∈ cache) (h1 : e.networkName = n) (h2 : e.containerID = c) (h3 : e.ifName = i) :
    (cacheFind cache n c i).isSome = true := by
  induction cache with
  | nil => simp at hm
  | cons x rest ih =>
    rcases List.mem_cons.mp hm with h | h
    · subst h
      simp [cacheFind, h1, h2, h3]
    · by_cases hx : x.networkName = n ∧ x.containerID = c ∧ x.ifName = i
      · simp [cacheFind, hx]
      · simp only [cacheFind, if_neg hx]
        exact ih h

theorem exceptMapM_ok {α β : Type} (f : α → Except String β) :
    ∀ (l : List α) (res : List β), l.length = res.length →
    (∀ i a, l.get? i = some a → ∃ b, res.get? i = some b ∧ f a = .ok b) →
    exceptMapM f l = .ok res := by
  intro l
  induction l with
  | nil =>
    intro res hlen _
    cases res with
    | nil => rfl
    | cons b bs => simp at hlen
  | cons a as ih =>
    intro res hlen hpt
    cases res with
    | nil => simp at hlen
    | cons b bs =>
      obtain ⟨b0, hb0, hfa⟩ := hpt 0 a (by simp)
      simp only [List.get?_cons_zero, Option.some.injEq] at hb0
      subst hb0
      have hrest : exceptMapM f as = .ok bs := by
        apply ih bs (by simpa using hlen)
        intro i x hx
        exact hpt (i + 1) x (by simpa using hx)
      simp [exceptMapM, hfa, hrest]

/-! ## Loader lemmas -/

theorem loadNetworksLoop_lookup :
    ∀ (files : List ConfFile) (acc : List (String × Network)) (dflt n : String),
    alookup n (loadNetworksLoop files acc dflt).1 =
      match alookup n acc with
      | some v => some v
      | none => (findDeclaring n files).bind netFromFile := by
  intro files
  induction files with
  | nil =>
    intro acc dflt n
    cases h : alookup n acc <;> simp [loadNetworksLoop, findDeclaring, h]
  | cons fl rest ih =>
    intro acc dflt n
    cases hp : fl.parsed with
    | none =>
      rw [show loadNetworksLoop (fl :: rest) acc dflt = loadNetworksLoop rest acc dflt by
        simp [loadNetworksLoop, hp]]
      rw [ih acc dflt n]
      have hfd : findDeclaring n (fl :: rest) = findDeclaring n rest := by
        simp [findDeclaring, hp]
      rw [hfd]
    | some c =>
      by_cases hn : c.name = n
      · subst hn
        cases hacc : alookup c.name acc with
        | some v =>
          rw [show loadNetworksLoop (fl :: rest) acc dflt = loadNetworksLoop rest acc dflt by
            simp [loadNetworksLoop, hp, hacc]]
          rw [ih acc dflt c.name, hacc]
        | none =>
          rw [show loadNetworksLoop (fl :: rest) acc dflt =
              loadNetworksLoop rest
                (acc ++ [(c.name, { name := c.name, fileName := fl.fileName, conf := c })])
                (if dflt = "" then c.name else dflt) by
            simp [loadNetworksLoop, hp, hacc]]
          rw [ih _ _ c.name, alookup_append, hacc]
          simp [alookup, findDeclaring, hp, netFromFile]
      · have hfd : findDeclaring n (fl :: rest) = findDeclaring n rest := by
          simp [findDeclaring, hp, hn]
        rw [hfd]
        cases hacc : alookup c.name acc with
        | some v =>
          rw [show loadNetworksLoop (fl :: rest) acc dflt = loadNetworksLoop rest acc dflt by
            simp [loadNetworksLoop, hp, hacc]]
          rw [ih acc dflt n]
        | none =>
          rw [show loadNetworksLoop (fl :: rest) acc dflt =
              loadNetworksLoop rest
                (acc ++ [(c.name, { name := c.name, fileName := fl.fileName, conf := c })])
                (if dflt = "" then c.name else dflt) by
            simp [loadNetworksLoop, hp, hacc]]
          rw [ih _ _ n, alookup_append]
          cases h2 : alookup n acc with
          | some v => rfl
          | none => simp [alookup, hn]

theorem loadNetworksLoop_default_stable :
    ∀ (files : List ConfFile) (acc : List (String × Network)) (dflt : String), dflt ≠ "" →
    (loadNetworksLoop files acc dflt).2 = dflt := by
  intro files
  induction files with
  | nil => intro acc dflt _; rfl
  | cons fl rest ih =>
    intro acc dflt hne
    cases hp : fl.parsed with
    | none => rw [show loadNetworksLoop (fl :: rest) acc dflt = loadNetworksLoop rest acc dflt by
        simp [loadNetworksLoop, hp]]; exact ih acc dflt hne
    | some c =>
      cases hacc : alookup c.name acc with
      | some v =>
        rw [show loadNetworksLoop (fl :: rest) acc dflt = loadNetworksLoop rest acc dflt by
          simp [loadNetworksLoop, hp, hacc]]
        exact ih acc dflt hne
      | none =>
        rw [show loadNetworksLoop (fl :: rest) acc dflt =
            loadNetworksLoop rest
              (acc ++ [(c.name, { name := c.name, fileName := fl.fileName, conf := c })])
              (if dflt = "" then c.name else dflt) by
          simp [loadNetworksLoop, hp, hacc]]
        rw [if_neg hne]
        exact ih _ dflt hne

theorem loadNetworksLoop_all_none :
    ∀ (files : List ConfFile) (acc : List (String × Network)) (dflt : String),
    (∀ fl ∈ files, fl.parsed = none) →
    loadNetworksLoop files acc dflt = (acc, dflt) := by
  intro files
  induction files with
  | nil => intro acc dflt _; rfl
  | cons fl rest ih =>
    intro acc dflt h
    have hp : fl.parsed = none := h fl (by simp)
    rw [show loadNetworksLoop (fl :: rest) acc dflt = loadNetworksLoop rest acc dflt by
      simp [loadNetworksLoop, hp]]
    exact ih acc dflt (fun g hg => h g (by simp [hg]))

theorem loadNetworksLoop_map :
    ∀ (files : List ConfFile) (acc : List (String × Network)) (dflt : String),
    (∀ fl ∈ files, fl.parsed.isSome = true) →
    (files.filterMap (fun fl => fl.parsed.map NetConf.name)).Nodup →
    (∀ fl ∈ files, ∀ c, fl.parsed = some c → alookup c.name acc = none) →
    (loadNetworksLoop files acc dflt).1 = acc ++ files.filterMap fileEntry := by
  intro files
  induction files with
  | nil => intro acc dflt _ _ _; simp [loadNetworksLoop]
  | cons fl rest ih =>
    intro acc dflt hall hnd hdisj
    obtain ⟨c, hp⟩ := Option.isSome_iff_exists.mp (hall fl (by simp))
    have hacc : alookup c.name acc = none := hdisj fl (by simp) c hp
    rw [show loadNetworksLoop (fl :: rest) acc dflt =
        loadNetworksLoop rest
          (acc ++ [(c.name, { name := c.name, fileName := fl.fileName, conf := c })])
          (if dflt = "" then c.name else dflt) by
      simp [loadNetworksLoop, hp, hacc]]
    have hnames : (List.filterMap (fun fl => fl.parsed.map NetConf.name) (fl :: rest)) =
        c.name :: rest.filterMap (fun fl => fl.parsed.map NetConf.name) := by
      simp [List.filterMap_cons, hp]
    rw [hnames] at hnd
    have hnd2 := List.nodup_cons.mp hnd
    have hdisj2 : ∀ g ∈ rest, ∀ c2, g.parsed = some c2 →
        alookup c2.name
          (acc ++ [(c.name, { name := c.name, fileName := fl.fileName, conf := c })]) = none := by
      intro g hg c2 hp2
      have hacc2 : alookup c2.name acc = none := hdisj g (by simp [hg]) c2 hp2
      have hmem2 : c2.name ∈ rest.filterMap (fun g2 => g2.parsed.map NetConf.name) :=
        List.mem_filterMap.mpr ⟨g, hg, by simp [hp2]⟩
      have hne : ¬ (c.name = c2.name) := fun he => hnd2.1 (he ▸ hmem2)
      rw [alookup_append, hacc2]
      simp [alookup, hne]
    rw [ih _ (if dflt = "" then c.name else dflt) (fun g hg => hall g (by simp [hg])) hnd2.2 hdisj2]
    have hfe : fileEntry fl =
        some (c.name, { name := c.name, fileName := fl.fileName, conf := c }) := by
      simp [fileEntry, hp]
    simp [List.filterMap_cons, hfe]

theorem loadNetworksLoop_default_insert (fl : ConfFile) (rest : List ConfFile) (c : NetConf)
    (hp : fl.parsed = some c) (hne : c.name ≠ "") :
    (loadNetworksLoop (fl :: rest) [] "").2 = c.name := by
  rw [show loadNetworksLoop (fl :: rest) [] "" =
      loadNetworksLoop rest [(c.name, { name := c.name, fileName := fl.fileName, conf := c })]
        c.name by simp [loadNetworksLoop, hp, alookup]]
  exact loadNetworksLoop_default_stable rest _ c.name hne

/-- The sort puts a file that is byte-lexicographically no later than
every other file (and whose filename is unique) at the head. -/
theorem sortConfFiles_head_of_min {files : List ConfFile} {f : ConfFile}
    (hmem : f ∈ files)
    (hmin : ∀ g ∈ files, confFileLe f g)
    (hnodup : (files.map ConfFile.fileName).Nodup) :
    ∃ rest, sortConfFiles files = f :: rest := by
  have hperm : List.Perm (sortConfFiles files) files := List.perm_insertionSort _ _
  have hsort : List.Sorted confFileLe (sortConfFiles files) :=
    List.sorted_insertionSort _ _
  have hmem2 : f ∈ sortConfFiles files := hperm.mem_iff.mpr hmem
  cases hs : sortConfFiles files with
  | nil => rw [hs] at hmem2; simp at hmem2
  | cons h t =>
    rw [hs] at hmem2 hsort hperm
    rcases List.mem_cons.mp hmem2 with he | ht
    · exact ⟨t, by rw [he]⟩
    · have hh : h ∈ files := hperm.subset (by simp)
      have h1 : confFileLe f h := hmin h hh
      have h2 : confFileLe h f := (List.sorted_cons.mp hsort).1 f ht
      have heq : h.fileName = f.fileName := confFileLe_antisymm_fileName h2 h1
      have hhf : h = f := List.inj_on_of_nodup_map hnodup hh hmem heq
      exact ⟨t, by rw [hhf]⟩

/-- In a sorted listing with distinct filenames, the first file
declaring `n` is the one that declares `n` and is no later than every
other file declaring `n`. -/
theorem findDeclaring_eq_of_min :
    ∀ (l : List ConfFile) (f : ConfFile) (n : String),
    List.Pairwise confFileLe l → f ∈ l → declares f n →
    (∀ g ∈ l, declares g n → confFileLe f g) →
    (l.map ConfFile.fileName).Nodup →
    findDeclaring n l = some f := by
  intro l
  induction l with
  | nil => intro f n _ hm _ _ _; simp at hm
  | cons h t ih =>
    intro f n hpw hm hd hmin hnd
    obtain ⟨c, hc, hcn⟩ := hd
    by_cases hh : declares h n
    · have hhf : h = f := by
        rcases List.mem_cons.mp hm with he | ht2
        · exact he.symm
        · have h1 : confFileLe f h := hmin h (by simp) hh
          have h2 : confFileLe h f := (List.pairwise_cons.mp hpw).1 f ht2
          have heq : h.fileName = f.fileName := confFileLe_antisymm_fileName h2 h1
          exact List.inj_on_of_nodup_map hnd (by simp) hm heq
      subst hhf
      simp [findDeclaring, hc, hcn]
    · have hne : f ≠ h := fun he => hh (he ▸ ⟨c, hc, hcn⟩)
      have ht2 : f ∈ t := by
        rcases List.mem_cons.mp hm with he | ht2
        · exact absurd he hne
        · exact ht2
      have hskip : findDeclaring n (h :: t) = findDeclaring n t := by
        cases hp : h.parsed with
        | none => simp [findDeclaring, hp]
        | some c2 =>
          have : ¬ (c2.name = n) := fun he => hh ⟨c2, hp, he⟩
          simp [findDeclaring, hp, this]
      rw [hskip]
      exact ih f n (List.pairwise_cons.mp hpw).2 ht2 ⟨c, hc, hcn⟩
        (fun g hg hdg => hmin g (by simp [hg]) hdg)
        ((List.nodup_cons.mp hnd).2)

/-! ## Engine lemmas -/

theorem podRuntimeConfig_empty {pod : PodNetwork} (h : pod.runtimeConfig = [])
    (n : String) : podRuntimeConfig pod n = {} := by
  simp [podRuntimeConfig, h, alookup]

theorem buildCNIRuntimeConf_empty_rc (cd : String) (pod : PodNetwork) (ifn : String) :
    ∃ rt, buildCNIRuntimeConf cd pod ifn {} = .ok rt :=
  ⟨_, rfl⟩

theorem unwindInvocations_map (cd : String) (pod : PodNetwork) (done : List NetAttachment) :
    (unwindInvocations cd pod done).map invSummary =
      (done.map (fun a => (CNICommand.del, a.name, a.ifname))).reverse := by
  unfold unwindInvocations
  rw [List.map_map, ← List.map_reverse]
  exact List.map_congr_left (fun x _ => rfl)

theorem mem_cachedAttachments {cache : Cache} {cid : String} {e : CacheEntry}
    (h : e ∈ cachedAttachments cache cid) : e ∈ cache ∧ e.containerID = cid := by
  have h2 : e ∈ cache.filter (fun x => x.containerID == cid) :=
    (List.mem_insertionSort _).mp h
  have h3 := List.mem_filter.mp h2
  exact ⟨h3.1, by simpa using h3.2⟩

/-- Characterization of a successful setUp loop: one (attachment,
result) pair and one cache insert per attachment, in order, with the
result coming from the executor's answer to the ADD invocation built
for that attachment. -/
theorem setUpLoop_ok (env : ExecEnv) (cacheDir : String) (pod : PodNetwork) :
    ∀ (atts done : List NetAttachment) (tr : List Invocation)
      (l : List (NetAttachment × CNIResult)) (ins : List CacheEntry),
    setUpLoop env cacheDir pod done atts = (tr, .ok l, ins) →
    l.length = atts.length ∧ ins.length = atts.length ∧
    ∀ i a, atts.get? i = some a →
      ∃ rt r, buildCNIRuntimeConf cacheDir pod a.ifname (podRuntimeConfig pod a.name) = .ok rt ∧
        env.exec (mkInvocation .add pod a rt.args) = .ok r ∧
        l.get? i = some (a, r) ∧ ins.get? i = some (mkCacheEntry pod a r) := by
  intro atts
  induction atts with
  | nil =>
    intro done tr l ins h
    simp only [setUpLoop, Prod.mk.injEq] at h
    obtain ⟨_, hres, hins⟩ := h
    have hl : l = [] := by cases hres; rfl
    subst hl
    subst hins
    exact ⟨rfl, rfl, fun i a ha => by simp at ha⟩
  | cons a rest ih =>
    intro done tr l ins h
    rw [setUpLoop] at h
    cases hb : buildCNIRuntimeConf cacheDir pod a.ifname (podRuntimeConfig pod a.name) with
    | error e => simp only [hb, Prod.mk.injEq] at h; exact absurd h.2.1.symm (by simp)
    | ok rt =>
      simp only [hb] at h
      cases he : env.exec (mkInvocation .add pod a rt.args) with
      | error e => simp only [he, Prod.mk.injEq] at h; exact absurd h.2.1.symm (by simp)
      | ok r =>
        simp only [he] at h
        rcases hrec : setUpLoop env cacheDir pod (done ++ [a]) rest with ⟨tr2, res2, ins2⟩
        rw [hrec] at h
        simp only [Prod.mk.injEq] at h
        obtain ⟨htr, hres, hins⟩ := h
        cases res2 with
        | error e2 => simp [Except.map] at hres
        | ok l2 =>
          simp only [Except.map, Except.ok.injEq] at hres
          obtain ⟨hlen2, hilen2, hpt⟩ := ih (done ++ [a]) tr2 l2 ins2 hrec
          subst hres
          subst hins
          refine ⟨by simp [hlen2], by simp [hilen2], ?_⟩
          intro i x hx
          cases i with
          | zero =>
            simp only [List.get?_cons_zero, Option.some.injEq] at hx
            subst hx
            exact ⟨rt, r, hb, he, rfl, rfl⟩
          | succ n =>
            simp only [List.get?_cons_succ] at hx ⊢
            exact hpt n x hx

/-- Characterization of a setUp loop that fails at 0-based index `k`
after the first `k` attachments succeeded: the trace is the ADD
invocations for attachments 0..k followed by DEL invocations for the
already-attached list in reverse order, and the original ADD error is
returned. -/
theorem setUpLoop_fail (env : ExecEnv) (cacheDir : String) (pod : PodNetwork) :
    ∀ (atts done : List NetAttachment) (k : Nat) (ak : NetAttachment) (rtk : RuntimeConf)
      (e : String),
    atts.get? k = some ak →
    buildCNIRuntimeConf cacheDir pod ak.ifname (podRuntimeConfig pod ak.name) = .ok rtk →
    env.exec (mkInvocation .add pod ak rtk.args) = .error e →
    (∀ i a, i < k → atts.get? i = some a →
      ∃ rt r, buildCNIRuntimeConf cacheDir pod a.ifname (podRuntimeConfig pod a.name) = .ok rt ∧
        env.exec (mkInvocation .add pod a rt.args) = .ok r) →
    ∃ tr ins, setUpLoop env cacheDir pod done atts = (tr, .error e, ins) ∧
      tr.map invSummary =
        ((atts.take (k + 1)).map (fun a => (CNICommand.add, a.name, a.ifname)))
        ++ (((done ++ atts.take k).map (fun a => (CNICommand.del, a.name, a.ifname))).reverse) := by
  intro atts
  induction atts with
  | nil => intro done k ak rtk e hk; simp at hk
  | cons a rest ih =>
    intro done k ak rtk e hk hbk hek hprev
    cases k with
    | zero =>
      simp only [List.get?_cons_zero, Option.some.injEq] at hk
      subst hk
      refine ⟨mkInvocation .add pod a rtk.args :: unwindInvocations cacheDir pod done, [],
        ?_, ?_⟩
      · rw [setUpLoop]
        simp only [hbk, hek]
      · simp only [List.take_succ_cons, List.take_zero, List.append_nil, List.map_cons,
          List.map_nil, List.map_cons, unwindInvocations_map]
        rfl
    | succ n =>
      obtain ⟨rt0, r0, hb0, he0⟩ := hprev 0 a (Nat.succ_pos n) (by simp)
      obtain ⟨tr2, ins2, heq, hmap⟩ := ih (done ++ [a]) n ak rtk e (by simpa using hk) hbk hek
        (fun i x hi hx => hprev (i + 1) x (Nat.succ_lt_succ hi) (by simpa using hx))
      refine ⟨mkInvocation .add pod a rt0.args :: tr2, mkCacheEntry pod a r0 :: ins2, ?_, ?_⟩
      · rw [setUpLoop]
        simp only [hb0, he0, heq, Except.map]
      · simp only [List.map_cons, List.take_succ_cons]
        rw [hmap]
        rw [show done ++ a :: List.take n rest = (done ++ [a]) ++ List.take n rest by simp]
        rfl

theorem tearDownLoop_trace (env : ExecEnv) (reg : Registry) (cacheDir : String)
    (pod : PodNetwork) (cache : Cache) :
    ∀ atts : List NetAttachment,
    (∀ a ∈ atts, ((alookup a.name reg.netMap).isSome
      || (cacheFind cache a.name pod.id a.ifname).isSome) = true) →
    (∀ a ∈ atts, ∃ rt,
      buildCNIRuntimeConf cacheDir pod a.ifname (podRuntimeConfig pod a.name) = .ok rt) →
    (tearDownLoop env reg cacheDir pod cache atts).1.map invSummary =
      atts.map (fun a => (CNICommand.del, a.name, a.ifname)) := by
  intro atts
  induction atts with
  | nil => intro _ _; rfl
  | cons a rest ih =>
    intro hconf hbuild
    obtain ⟨rt, hrt⟩ := hbuild a (by simp)
    have hc := hconf a (by simp)
    have ihr := ih (fun x hx => hconf x (by simp [hx])) (fun x hx => hbuild x (by simp [hx]))
    rw [tearDownLoop, if_pos hc]
    simp only [hrt]
    cases he : env.exec (mkInvocation .del pod a rt.args) with
    | error e2 =>
      simp only [he, List.map_cons, ihr]
      rfl
    | ok r =>
      simp only [he, List.map_cons, ihr]
      rfl

/-- In the list of cache entries inserted by a successful setUp, the
entry found for an attachment's (network, container, ifname) key is
exactly that attachment's entry, provided the resolved keys are
pairwise distinct. -/
theorem cacheFind_aligned (pod : PodNetwork) :
    ∀ (atts : List NetAttachment) (ins : List CacheEntry),
    ins.length = atts.length →
    (∀ j b, atts.get? j = some b → ∃ r, ins.get? j = some (mkCacheEntry pod b r)) →
    (atts.map (fun a => (a.name, a.ifname))).Nodup →
    ∀ i a e, atts.get? i = some a → ins.get? i = some e →
    cacheFind ins a.name pod.id a.ifname = some e := by
  intro atts
  induction atts with
  | nil => intro ins _ _ _ i a e ha; simp at ha
  | cons a0 rest ih =>
    intro ins hlen hal hnd i a e ha he
    cases ins with
    | nil => simp at hlen
    | cons e0 ins2 =>
      obtain ⟨r0, hr0⟩ := hal 0 a0 (by simp)
      simp only [List.get?_cons_zero, Option.some.injEq] at hr0
      subst hr0
      cases i with
      | zero =>
        simp only [List.get?_cons_zero, Option.some.injEq] at ha he
        subst ha
        subst he
        simp [cacheFind, mkCacheEntry]
      | succ n =>
        simp only [List.get?_cons_succ] at ha he
        have hmem : (a.name, a.ifname) ∈ rest.map (fun x => (x.name, x.ifname)) := by
          apply List.mem_map.mpr
          exact ⟨a, List.get?_mem ha, rfl⟩
        have hnd2 := List.nodup_cons.mp hnd
        have hkey : ¬ ((mkCacheEntry pod a0 r0).networkName = a.name ∧
            (mkCacheEntry pod a0 r0).containerID = pod.id ∧
            (mkCacheEntry pod a0 r0).ifName = a.ifname) := by
          intro hk
          obtain ⟨h1, _, h3⟩ := hk
          simp only [mkCacheEntry] at h1 h3
          exact hnd2.1 (by simp only [h1, h3]; exact hmem)
        rw [cacheFind, if_neg hkey]
        exact ih ins2 (by simpa using hlen)
          (fun j b hb => hal (j + 1) b (by simpa using hb)) hnd2.2 n a e ha he

/-- Inversion of a successful `setUpPod`: the availability and
loopback checks passed and the loop succeeded. -/
theorem setUpPod_ok_inv {env : ExecEnv} {reg : Registry} {cacheDir : String}
    {pod : PodNetwork} {cache : Cache} {tr : List Invocation} {results : List NetResult}
    {cache' : Cache}
    (h : setUpPod env reg cacheDir pod cache = ⟨tr, .ok results, cache'⟩) :
    (rawAttachments reg pod).all (fun a => (alookup a.name reg.netMap).isSome) = true ∧
    env.loopbackOk = true ∧
    ∃ l ins, setUpLoop env cacheDir pod [] (resolvedAttachments reg pod) = (tr, .ok l, ins) ∧
      results = l.map (fun p => ⟨p.1.name, p.1.ifname, p.2⟩) ∧ cache' = ins ++ cache := by
  unfold setUpPod at h
  split at h
  · next hall =>
    split at h
    · next hlo =>
      split at h
      · next l heq =>
        cases h
        refine ⟨hall, hlo, l, _, ?_, rfl, rfl⟩
        rw [← heq]
      · next e heq => cases h
    · next hlo => cases h
  · next hall => cases h

/-! ## The claims -/

/-- C1: for every successful setUp of a pod, the returned list
contains exactly one NetResult per resolved attachment — the explicit
Networks list if given, otherwise exactly the default network — and
the i-th result corresponds to the i-th attachment of the resolved
attachment list, in order: it carries that attachment's network name,
its resolved interface name, and the result the plugin executor
returned for that attachment's ADD invocation. -/
theorem setUpPod_results (env : ExecEnv) (reg : Registry) (cacheDir : String)
    (pod : PodNetwork) (cache : Cache) (tr : List Invocation) (results : List NetResult)
    (cache' : Cache)
    (h : setUpPod env reg cacheDir pod cache = ⟨tr, .ok results, cache'⟩) :
    results.length = (resolvedAttachments reg pod).length ∧
    ∀ i a, (resolvedAttachments reg pod).get? i = some a →
      ∃ rt r, buildCNIRuntimeConf cacheDir pod a.ifname (podRuntimeConfig pod a.name) = .ok rt ∧
        env.exec (mkInvocation .add pod a rt.args) = .ok r ∧
        results.get? i = some ⟨a.name, a.ifname, r⟩ := by
  obtain ⟨hall, hlo, l, ins, hloop, hres, hcache⟩ := setUpPod_ok_inv h
  obtain ⟨hlen, hilen, hpt⟩ := setUpLoop_ok env cacheDir pod (resolvedAttachments reg pod)
    [] tr l ins hloop
  constructor
  · rw [hres, List.length_map, hlen]
  · intro i a ha
    obtain ⟨rt, r, hb, he, hl, _⟩ := hpt i a ha
    refine ⟨rt, r, hb, he, ?_⟩
    rw [hres, List.get?_map, hl]
    rfl

theorem setUpPod_results_witness :
    c1Results.length = (resolvedAttachments sampleReg samplePod).length ∧
    (∃ rt r,
      buildCNIRuntimeConf "cd" samplePod "eth0" (podRuntimeConfig samplePod "network3") =
        .ok rt ∧
      sampleEnv.exec (mkInvocation .add samplePod ⟨"network3", "eth0"⟩ rt.args) = .ok r ∧
      c1Results.get? 0 = some ⟨"network3", "eth0", r⟩) ∧
    (∃ rt r,
      buildCNIRuntimeConf "cd" samplePod "eth1" (podRuntimeConfig samplePod "network4") =
        .ok rt ∧
      sampleEnv.exec (mkInvocation .add samplePod ⟨"network4", "eth1"⟩ rt.args) = .ok r ∧
      c1Results.get? 1 = some ⟨"network4", "eth1", r⟩) := by
  have h := setUpPod_results sampleEnv sampleReg "cd" samplePod []
    (setUpPod sampleEnv sampleReg "cd" samplePod []).trace c1Results
    (setUpPod sampleEnv sampleReg "cd" samplePod []).cache rfl
  exact ⟨h.1, h.2 0 ⟨"network3", "eth0"⟩ rfl, h.2 1 ⟨"network4", "eth1"⟩ rfl⟩

/-- C2: when setUp fails on the attachment at 0-based index `k` of
its resolved attachment list — i.e. the k+1-st attachment, 1-indexed
— after the first `k` attachments succeeded, it issues exactly `k`
DEL invocations (that is, k-1 DELs for a 1-indexed failing position
k), in reverse order of the previously-succeeded attachments, ignores
the executor's answers to those DELs (the executor is arbitrary on
DEL invocations), returns the original ADD error, and leaves the
attachment cache unchanged. -/
theorem setUpPod_partial_failure (env : ExecEnv) (reg : Registry) (cacheDir : String)
    (pod : PodNetwork) (cache : Cache) (k : Nat) (ak : NetAttachment) (rtk : RuntimeConf)
    (e : String)
    (hall : (rawAttachments reg pod).all (fun a => (alookup a.name reg.netMap).isSome) = true)
    (hlo : env.loopbackOk = true)
    (hk : (resolvedAttachments reg pod).get? k = some ak)
    (hbk : buildCNIRuntimeConf cacheDir pod ak.ifname (podRuntimeConfig pod ak.name) = .ok rtk)
    (hek : env.exec (mkInvocation .add pod ak rtk.args) = .error e)
    (hprev : ∀ i a, i < k → (resolvedAttachments reg pod).get? i = some a →
      ∃ rt r, buildCNIRuntimeConf cacheDir pod a.ifname (podRuntimeConfig pod a.name) = .ok rt ∧
        env.exec (mkInvocation .add pod a rt.args) = .ok r) :
    (setUpPod env reg cacheDir pod cache).result = .error e ∧
    (setUpPod env reg cacheDir pod cache).trace.map invSummary =
      ((resolvedAttachments reg pod).take (k + 1)).map
        (fun a => (CNICommand.add, a.name, a.ifname))
      ++ (((resolvedAttachments reg pod).take k).map
        (fun a => (CNICommand.del, a.name, a.ifname))).reverse ∧
    (setUpPod env reg cacheDir pod cache).trace.countP
      (fun v => v.command == CNICommand.del) = k ∧
    (setUpPod env reg cacheDir pod cache).cache = cache := by
  obtain ⟨tr, ins, hloop, hmap⟩ :=
    setUpLoop_fail env cacheDir pod (resolvedAttachments reg pod) [] k ak rtk e hk hbk hek hprev
  rw [List.nil_append] at hmap
  have he1 : setUpPod env reg cacheDir pod cache = ⟨tr, .error e, cache⟩ := by
    unfold setUpPod
    rw [if_pos hall, if_pos hlo, hloop]
  rw [he1]
  have hlt : k < (resolvedAttachments reg pod).length := (List.get?_eq_some.mp hk).1
  refine ⟨rfl, hmap, ?_, rfl⟩
  have h1 : tr.countP (fun v => v.command == CNICommand.del) =
      (tr.map invSummary).countP (fun s => s.1 == CNICommand.del) := by
    rw [List.countP_map]
    rfl
  rw [h1, hmap, List.countP_append, List.countP_reverse]
  have hz : (((resolvedAttachments reg pod).take (k + 1)).map
      (fun a => (CNICommand.add, a.name, a.ifname))).countP
      (fun s => s.1 == CNICommand.del) = 0 := by
    apply List.countP_eq_zero.mpr
    intro s hs
    obtain ⟨a, _, hsa⟩ := List.mem_map.mp hs
    rw [← hsa]
    simp
  have hfull : (((resolvedAttachments reg pod).take k).map
      (fun a => (CNICommand.del, a.name, a.ifname))).countP
      (fun s => s.1 == CNICommand.del) =
      (((resolvedAttachments reg pod).take k).map
        (fun a => (CNICommand.del, a.name, a.ifname))).length := by
    apply List.countP_eq_length.mpr
    intro s hs
    obtain ⟨a, _, hsa⟩ := List.mem_map.mp hs
    rw [← hsa]
    simp
  rw [hz, hfull, List.length_map, List.length_take]
  omega

theorem setUpPod_partial_failure_witness :
    (setUpPod failEnv sampleReg "cd" samplePod []).result = .error "plugin failed" ∧
    (setUpPod failEnv sampleReg "cd" samplePod []).trace.map invSummary =
      [(CNICommand.add, "network3", "eth0"), (CNICommand.add, "network4", "eth1"),
       (CNICommand.del, "network3", "eth0")] ∧
    (setUpPod failEnv sampleReg "cd" samplePod []).trace.countP
      (fun v => v.command == CNICommand.del) = 1 ∧
    (setUpPod failEnv sampleReg "cd" samplePod []).cache = [] := by
  have h := setUpPod_partial_failure failEnv sampleReg "cd" samplePod [] 1
    ⟨"network4", "eth1"⟩ _ "plugin failed" rfl rfl rfl rfl rfl
    (by
      intro i a hi ha
      have hi0 : i = 0 := by omega
      subst hi0
      have h0 : (resolvedAttachments sampleReg samplePod).get? 0 =
          some ⟨"network3", "eth0"⟩ := rfl
      rw [h0] at ha
      cases ha
      exact ⟨_, okResult "eth0", rfl, rfl⟩)
  exact ⟨h.1, h.2.1.trans (by rfl), h.2.2.1, h.2.2.2⟩

/-- C3: a tearDown of a pod that specifies no explicit attachments
recovers the attachment set from the on-disk cache keyed by the
containerID, issuing one DEL per cached attachment carrying the
cached interface name, in cache-file order (so CNI_IFNAME=eth0 then
CNI_IFNAME=eth1 for two cached entries); a tearDown of a pod that
does specify attachments uses those instead, the cache playing no
part in the attachment set. -/
theorem tearDownPod_resolution (env : ExecEnv) (reg : Registry) (cacheDir : String)
    (pod : PodNetwork) (cache : Cache)
    (hrc : pod.runtimeConfig = []) :
    (pod.networks = [] →
      (tearDownPod env reg cacheDir pod cache).trace.map invSummary =
        (cachedAttachments cache pod.id).map
          (fun e => (CNICommand.del, e.networkName, e.ifName))) ∧
    (pod.networks ≠ [] →
      (∀ a ∈ pod.networks, (alookup a.name reg.netMap).isSome = true) →
      (tearDownPod env reg cacheDir pod cache).trace.map invSummary =
        (resolvedAttachments reg pod).map (fun a => (CNICommand.del, a.name, a.ifname))) := by
  have htr : (tearDownPod env reg cacheDir pod cache).trace =
      (tearDownLoop env reg cacheDir pod cache (tearDownAttachments reg pod cache)).1 := by
    unfold tearDownPod
    cases (tearDownLoop env reg cacheDir pod cache (tearDownAttachments reg pod cache)).2 with
    | nil => rfl
    | cons e rest => rfl
  have hbuild : ∀ a : NetAttachment,
      ∃ rt, buildCNIRuntimeConf cacheDir pod a.ifname (podRuntimeConfig pod a.name) = .ok rt := by
    intro a
    rw [podRuntimeConfig_empty hrc]
    exact buildCNIRuntimeConf_empty_rc cacheDir pod a.ifname
  constructor
  · intro hn
    have hatts : tearDownAttachments reg pod cache =
        (cachedAttachments cache pod.id).map
          (fun e => ({ name := e.networkName, ifname := e.ifName } : NetAttachment)) := by
      unfold tearDownAttachments
      rw [if_pos hn]
    have hconf : ∀ a ∈ (cachedAttachments cache pod.id).map
        (fun e => ({ name := e.networkName, ifname := e.ifName } : NetAttachment)),
        ((alookup a.name reg.netMap).isSome
          || (cacheFind cache a.name pod.id a.ifname).isSome) = true := by
      intro a ha
      obtain ⟨ce, hce, hcea⟩ := List.mem_map.mp ha
      subst hcea
      obtain ⟨hmem, hcid⟩ := mem_cachedAttachments hce
      have hfind := cacheFind_isSome_of_mem hmem rfl hcid rfl
      simp only [hfind, Bool.or_true]
    rw [htr, hatts, tearDownLoop_trace env reg cacheDir pod cache _ hconf
      (fun a _ => hbuild a), List.map_map]
    rfl
  · intro hn hav
    have hatts : tearDownAttachments reg pod cache = resolvedAttachments reg pod := by
      unfold tearDownAttachments
      rw [if_neg hn]
    have hconf : ∀ a ∈ resolvedAttachments reg pod,
        ((alookup a.name reg.netMap).isSome
          || (cacheFind cache a.name pod.id a.ifname).isSome) = true := by
      intro a ha
      unfold resolvedAttachments at ha
      obtain ⟨i, x, hx, hax⟩ := mem_mapIdxFrom ha
      subst hax
      have hxm : x ∈ pod.networks := by
        have h2 := List.get?_mem hx
        unfold rawAttachments at h2
        rwa [if_neg hn] at h2
      have h3 := hav x hxm
      simp only [h3, Bool.true_or]
    rw [htr, hatts, tearDownLoop_trace env reg cacheDir pod cache _ hconf
      (fun a _ => hbuild a)]

theorem tearDownPod_resolution_witness :
    (tearDownPod sampleEnv sampleReg "cd" defaultPod sampleCache).trace.map invSummary =
      [(CNICommand.del, "network1", "eth0"), (CNICommand.del, "network2", "eth1")] ∧
    (tearDownPod sampleEnv sampleReg "cd" defaultPod sampleCache).trace.map
      (fun v => "CNI_IFNAME=" ++ v.ifName) = ["CNI_IFNAME=eth0", "CNI_IFNAME=eth1"] ∧
    (tearDownPod sampleEnv sampleReg "cd" samplePod sampleCache).trace.map invSummary =
      [(CNICommand.del, "network3", "eth0"), (CNICommand.del, "network4", "eth1")] := by
  have h := tearDownPod_resolution sampleEnv sampleReg "cd" defaultPod sampleCache rfl
  have h2 := tearDownPod_resolution sampleEnv sampleReg "cd" samplePod sampleCache rfl
  exact ⟨(h.1 rfl).trans (by rfl), by rfl,
    (h2.2 (by decide) (by decide)).trans (by rfl)⟩

/-- C8: an attachment whose interface name is omitted gets the
positional default eth followed by its 0-based index in the
attachment list — the first eth0, the second eth1, and so on — both
when resolving a pod operation's attachments and when normalizing
the live-attachment payload for GC, so plugins see the same
(containerID, ifname) identities at GC as at ADD time. -/
theorem interfaceName_defaulting (reg : Registry) (pod : PodNetwork) (i : Nat)
    (containerID : String) (atts : List NetAttachment) :
    (∀ a, (rawAttachments reg pod).get? i = some a → a.ifname = "" →
      (resolvedAttachments reg pod).get? i = some { name := a.name, ifname := ethName i }) ∧
    (∀ b, atts.get? i = some b → b.ifname = "" →
      (gcNormalize containerID atts).get? i =
        some (containerID, { name := b.name, ifname := ethName i })) := by
  constructor
  · intro a ha hifn
    unfold resolvedAttachments
    rw [mapIdxFrom_get?, ha]
    simp [resolveIfName, hifn]
  · intro b hb hifn
    unfold gcNormalize
    rw [mapIdxFrom_get?, hb]
    simp [resolveIfName, hifn]

theorem interfaceName_defaulting_witness :
    (resolvedAttachments sampleReg samplePod).get? 1 =
      some { name := "network4", ifname := ethName 1 } ∧
    (gcNormalize "1234567890" samplePod.networks).get? 1 =
      some ("1234567890", { name := "network4", ifname := ethName 1 }) ∧
    ethName 1 = "eth1" := by
  have h := interfaceName_defaulting sampleReg samplePod 1 "1234567890" samplePod.networks
  exact ⟨h.1 ⟨"network4", ""⟩ rfl rfl, h.2 ⟨"network4", ""⟩ rfl rfl, rfl⟩

/-- C4 counterexample: the runtime-conf builder does not emit a
K8S_POD_UID arg.  For a pod with a valid requested IP the emitted
arg keys are exactly IgnoreUnknown, K8S_POD_NAMESPACE, K8S_POD_NAME,
K8S_POD_INFRA_CONTAINER_ID and IP — five args, with no K8S_POD_UID
among them — matching the repository test's assertion that the arg
list has length 5 with the IP at index 4. -/
theorem buildCNIRuntimeConf_no_uid_arg :
    ∃ rt, buildCNIRuntimeConf "empty" defaultPod "eth0" { ip := "172.16.0.1" } = .ok rt ∧
      rt.args.map Prod.fst =
        ["IgnoreUnknown", "K8S_POD_NAMESPACE", "K8S_POD_NAME",
         "K8S_POD_INFRA_CONTAINER_ID", "IP"] ∧
      "K8S_POD_UID" ∉ rt.args.map Prod.fst ∧
      rt.args.length = 5 := by
  refine ⟨_, rfl, ?_, ?_, ?_⟩ <;> decide

/-- C4 (amended): for every pod and per-network RuntimeConfig, the
runtime-conf builder emits the ordered string args IgnoreUnknown=1,
K8S_POD_NAMESPACE, K8S_POD_NAME, K8S_POD_INFRA_CONTAINER_ID,
followed optionally by IP and then MAC when those fields are set; no
K8S_POD_UID arg is emitted. -/
theorem buildCNIRuntimeConf_args (cacheDir : String) (pod : PodNetwork) (ifName : String)
    (rc : RuntimeConfig) (rt : RuntimeConf)
    (h : buildCNIRuntimeConf cacheDir pod ifName rc = .ok rt) :
    rt.args =
      [("IgnoreUnknown", "1"), ("K8S_POD_NAMESPACE", pod.namespaceName),
       ("K8S_POD_NAME", pod.name), ("K8S_POD_INFRA_CONTAINER_ID", pod.id)]
      ++ (if rc.ip ≠ "" then [("IP", rc.ip)] else [])
      ++ (if rc.mac ≠ "" then [("MAC", rc.mac)] else []) := by
  unfold buildCNIRuntimeConf at h
  split at h
  · exact absurd h (by simp)
  · split at h
    · exact absurd h (by simp)
    · cases h
      rfl

theorem buildCNIRuntimeConf_args_witness :
    ∃ rt, buildCNIRuntimeConf "empty" defaultPod "eth0"
        { ip := "172.16.0.1", mac := "9e:0c:d9:b2:f0:a6" } = .ok rt ∧
      rt.args =
        [("IgnoreUnknown", "1"), ("K8S_POD_NAMESPACE", "namespace1"),
         ("K8S_POD_NAME", "pod1"), ("K8S_POD_INFRA_CONTAINER_ID", "1234567890"),
         ("IP", "172.16.0.1"), ("MAC", "9e:0c:d9:b2:f0:a6")] :=
  ⟨_, rfl, (buildCNIRuntimeConf_args "empty" defaultPod "eth0"
    { ip := "172.16.0.1", mac := "9e:0c:d9:b2:f0:a6" } _ rfl).trans (by rfl)⟩

/-- C5: a RuntimeConfig whose IP does not parse as a v4 or v6
address, or whose MAC does not parse as a 6-byte hardware address,
makes the runtime-conf builder return an error, and a setUp hitting
such a build error for its first attachment issues no plugin
invocation at all; a valid IP or MAC passes the build and appears
verbatim in the emitted args. -/
theorem buildCNIRuntimeConf_validation :
    (∀ cacheDir pod ifName (rc : RuntimeConfig), rc.ip ≠ "" → parseIP rc.ip = none →
      buildCNIRuntimeConf cacheDir pod ifName rc =
        .error ("unable to parse IP address " ++ rc.ip)) ∧
    (∀ cacheDir pod ifName (rc : RuntimeConfig),
      rc.ip = "" ∨ (parseIP rc.ip).isSome = true → rc.mac ≠ "" → parseMAC rc.mac = none →
      buildCNIRuntimeConf cacheDir pod ifName rc =
        .error ("unable to parse MAC address " ++ rc.mac)) ∧
    (∀ cacheDir pod ifName (rc : RuntimeConfig),
      (parseIP rc.ip).isSome = true → rc.mac = "" ∨ (parseMAC rc.mac).isSome = true →
      ∃ rt, buildCNIRuntimeConf cacheDir pod ifName rc = .ok rt ∧ ("IP", rc.ip) ∈ rt.args) ∧
    (∀ cacheDir pod ifName (rc : RuntimeConfig),
      rc.ip = "" ∨ (parseIP rc.ip).isSome = true → (parseMAC rc.mac).isSome = true →
      ∃ rt, buildCNIRuntimeConf cacheDir pod ifName rc = .ok rt ∧ ("MAC", rc.mac) ∈ rt.args) ∧
    (∀ env reg cacheDir pod cache a rest msg,
      resolvedAttachments reg pod = a :: rest →
      buildCNIRuntimeConf cacheDir pod a.ifname (podRuntimeConfig pod a.name) = .error msg →
      (rawAttachments reg pod).all (fun x => (alookup x.name reg.netMap).isSome) = true →
      env.loopbackOk = true →
      (setUpPod env reg cacheDir pod cache).trace = [] ∧
      (setUpPod env reg cacheDir pod cache).result = .error msg) := by
  have hipcond : ∀ rc : RuntimeConfig, rc.ip = "" ∨ (parseIP rc.ip).isSome = true →
      ¬ (rc.ip ≠ "" ∧ (parseIP rc.ip).isNone = true) := by
    intro rc h hc
    rcases h with h | h
    · exact hc.1 h
    · rw [Option.isNone_iff_eq_none] at hc
      rw [hc.2] at h
      cases h
  refine ⟨?_, ?_, ?_, ?_, ?_⟩
  · intro cacheDir pod ifName rc hne hparse
    unfold buildCNIRuntimeConf
    rw [if_pos ⟨hne, by rw [hparse]; rfl⟩]
  · intro cacheDir pod ifName rc hip hne hparse
    unfold buildCNIRuntimeConf
    rw [if_neg (hipcond rc hip), if_pos ⟨hne, by rw [hparse]; rfl⟩]
  · intro cacheDir pod ifName rc hip hmac
    have hempty : parseIP "" = none := rfl
    have hne : rc.ip ≠ "" := by
      intro he
      rw [he, hempty] at hip
      cases hip
    have hmaccond : ¬ (rc.mac ≠ "" ∧ (parseMAC rc.mac).isNone = true) := by
      intro hc
      rcases hmac with h | h
      · exact hc.1 h
      · rw [Option.isNone_iff_eq_none] at hc
        rw [hc.2] at h
        cases h
    refine ⟨mkRuntimeConf cacheDir pod ifName rc, ?_, ?_⟩
    · unfold buildCNIRuntimeConf
      rw [if_neg (hipcond rc (Or.inr hip)), if_neg hmaccond]
    · simp [mkRuntimeConf, hne]
  · intro cacheDir pod ifName rc hip hmac
    have hempty : parseMAC "" = none := rfl
    have hne : rc.mac ≠ "" := by
      intro he
      rw [he, hempty] at hmac
      cases hmac
    have hmaccond : ¬ (rc.mac ≠ "" ∧ (parseMAC rc.mac).isNone = true) := by
      intro hc
      rw [Option.isNone_iff_eq_none] at hc
      rw [hc.2] at hmac
      cases hmac
    refine ⟨mkRuntimeConf cacheDir pod ifName rc, ?_, ?_⟩
    · unfold buildCNIRuntimeConf
      rw [if_neg (hipcond rc hip), if_neg hmaccond]
    · simp [mkRuntimeConf, hne]
  · intro env reg cacheDir pod cache a rest msg hres hberr hall hlo
    have hloop : setUpLoop env cacheDir pod [] (resolvedAttachments reg pod) =
        ([], .error msg, []) := by
      rw [hres, setUpLoop]
      simp only [hberr]
      rfl
    have he1 : setUpPod env reg cacheDir pod cache = ⟨[], .error msg, cache⟩ := by
      unfold setUpPod
      rw [if_pos hall, if_pos hlo, hloop]
    rw [he1]
    exact ⟨rfl, rfl⟩

theorem buildCNIRuntimeConf_validation_witness :
    buildCNIRuntimeConf "empty" defaultPod "eth0" { ip := "172.16" } =
      .error "unable to parse IP address 172.16" ∧
    buildCNIRuntimeConf "empty" defaultPod "eth0" { mac := "f0:a6" } =
      .error "unable to parse MAC address f0:a6" ∧
    (∃ rt, buildCNIRuntimeConf "empty" defaultPod "eth0" { ip := "172.16.0.1" } = .ok rt ∧
      ("IP", "172.16.0.1") ∈ rt.args) ∧
    (∃ rt, buildCNIRuntimeConf "empty" defaultPod "eth0" { mac := "9e:0c:d9:b2:f0:a6" } =
      .ok rt ∧ ("MAC", "9e:0c:d9:b2:f0:a6") ∈ rt.args) ∧
    (setUpPod sampleEnv sampleReg "cd" invalidIpPod []).trace = [] ∧
    (setUpPod sampleEnv sampleReg "cd" invalidIpPod []).result =
      .error "unable to parse IP address 172.16" := by
  have h := buildCNIRuntimeConf_validation
  have h5 := h.2.2.2.2 sampleEnv sampleReg "cd" invalidIpPod [] ⟨"network3", "eth0"⟩ []
    "unable to parse IP address 172.16" rfl rfl rfl rfl
  exact ⟨h.1 "empty" defaultPod "eth0" { ip := "172.16" } (by decide) (by rfl),
    h.2.1 "empty" defaultPod "eth0" { mac := "f0:a6" } (Or.inl rfl) (by decide) (by rfl),
    h.2.2.1 "empty" defaultPod "eth0" { ip := "172.16.0.1" } (by rfl) (Or.inl rfl),
    h.2.2.2.1 "empty" defaultPod "eth0" { mac := "9e:0c:d9:b2:f0:a6" } (Or.inl rfl) (by rfl),
    h5.1, h5.2⟩

theorem fileEntry_keys : ∀ (l : List ConfFile),
    (l.filterMap fileEntry).map Prod.fst =
      l.filterMap (fun fl => fl.parsed.map NetConf.name) := by
  intro l
  induction l with
  | nil => rfl
  | cons fl rest ih =>
    cases hp : fl.parsed with
    | none => simp [List.filterMap_cons, fileEntry, hp, ih]
    | some c => simp [List.filterMap_cons, fileEntry, hp, ih]

/-- C6: for a configuration listing whose parseable files declare
pairwise distinct network names (all files parseable, filenames
distinct), the loader returns a map with exactly one entry per
declared name — its keys are a permutation of the declared names —
and the default name is the name declared by the file that is first
in byte-lexicographic (ASCII-betical) filename order. -/
theorem loadNetworks_distinct (files : List ConfFile) (netMap : List (String × Network))
    (dflt : String) (f : ConfFile) (c : NetConf)
    (hload : loadNetworks (.ok files) = .ok (netMap, dflt))
    (hall : ∀ fl ∈ files, fl.parsed.isSome = true)
    (hnames : (files.filterMap (fun fl => fl.parsed.map NetConf.name)).Nodup)
    (hfn : (files.map ConfFile.fileName).Nodup)
    (hmem : f ∈ files)
    (hmin : ∀ g ∈ files, fileNameLe f.fileName g.fileName)
    (hfc : f.parsed = some c)
    (hne : c.name ≠ "") :
    (netMap.map Prod.fst).Perm (files.filterMap (fun fl => fl.parsed.map NetConf.name)) ∧
    dflt = c.name := by
  have hload2 : loadNetworksLoop (sortConfFiles files) [] "" = (netMap, dflt) := by
    unfold loadNetworks at hload
    exact Except.ok.inj hload
  have hperm : List.Perm (sortConfFiles files) files := List.perm_insertionSort _ _
  have hall2 : ∀ fl ∈ sortConfFiles files, fl.parsed.isSome = true :=
    fun fl hfl => hall fl (hperm.subset hfl)
  have hnames2 : ((sortConfFiles files).filterMap
      (fun fl => fl.parsed.map NetConf.name)).Nodup :=
    ((hperm.filterMap _).nodup_iff).mpr hnames
  have hmap := loadNetworksLoop_map (sortConfFiles files) [] "" hall2 hnames2
    (fun _ _ _ _ => rfl)
  have hm : netMap = (sortConfFiles files).filterMap fileEntry := by
    have h1 := congrArg Prod.fst hload2
    rw [hmap] at h1
    simpa using h1.symm
  constructor
  · rw [hm, fileEntry_keys]
    exact hperm.filterMap _
  · obtain ⟨rest, hs⟩ := sortConfFiles_head_of_min hmem hmin hfn
    have h2 := congrArg Prod.snd hload2
    rw [hs] at h2
    rw [loadNetworksLoop_default_insert f rest c hfc hne] at h2
    exact h2.symm

theorem loadNetworks_distinct_witness :
    (sampleNetMap.map Prod.fst).Perm
      (sampleFiles.filterMap (fun fl => fl.parsed.map NetConf.name)) ∧
    "network2" = "network2" :=
  loadNetworks_distinct sampleFiles sampleNetMap "network2"
    ⟨"10-network2.conf", some ⟨"network2", "myplugin", "0.3.1"⟩⟩
    ⟨"network2", "myplugin", "0.3.1"⟩
    rfl (by decide) (by decide) (by decide) (by decide) (by decide) rfl (by decide)

/-- C7: when several configuration files declare the same network
name, the loader keeps the one whose filename is byte-lexicographically
earliest and ignores the others without reporting an error: the
returned map contains, under that name, the network built from the
earliest file's configuration. -/
theorem loadNetworks_duplicate_names (files : List ConfFile) (netMap : List (String × Network))
    (dflt n : String) (f : ConfFile) (c : NetConf)
    (hload : loadNetworks (.ok files) = .ok (netMap, dflt))
    (hfn : (files.map ConfFile.fileName).Nodup)
    (hmem : f ∈ files)
    (hfc : f.parsed = some c)
    (hcn : c.name = n)
    (hmin : ∀ g ∈ files, declares g n → fileNameLe f.fileName g.fileName) :
    alookup n netMap = some { name := c.name, fileName := f.fileName, conf := c } := by
  have hload2 : loadNetworksLoop (sortConfFiles files) [] "" = (netMap, dflt) := by
    unfold loadNetworks at hload
    exact Except.ok.inj hload
  have hperm : List.Perm (sortConfFiles files) files := List.perm_insertionSort _ _
  have hsort : List.Sorted confFileLe (sortConfFiles files) :=
    List.sorted_insertionSort _ _
  have hfind : findDeclaring n (sortConfFiles files) = some f :=
    findDeclaring_eq_of_min (sortConfFiles files) f n hsort (hperm.mem_iff.mpr hmem)
      ⟨c, hfc, hcn⟩ (fun g hg hdg => hmin g (hperm.subset hg) hdg)
      ((hperm.map _).nodup_iff.mpr hfn)
  have hlk := loadNetworksLoop_lookup (sortConfFiles files) [] "" n
  have h1 : (loadNetworksLoop (sortConfFiles files) [] "").1 = netMap := by rw [hload2]
  rw [h1, hfind] at hlk
  simp only [alookup] at hlk
  rw [hlk]
  simp [netFromFile, hfc]

theorem loadNetworks_duplicate_names_witness :
    alookup "network2" dupNetMap =
      some { name := "network2", fileName := "10-network2.conf",
             conf := ⟨"network2", "myplugin", "0.3.1"⟩ } :=
  loadNetworks_duplicate_names dupFiles dupNetMap "network2" "network2"
    ⟨"10-network2.conf", some ⟨"network2", "myplugin", "0.3.1"⟩⟩
    ⟨"network2", "myplugin", "0.3.1"⟩
    rfl (by decide) (by decide) rfl rfl (by decide)

/-- C9: a configuration directory with no parseable files makes the
loader return an empty map, an empty default name, and no error; the
status operation over that empty registry reports not-ready. -/
theorem loadNetworks_no_parseable (files : List ConfFile)
    (h : ∀ fl ∈ files, fl.parsed = none) :
    loadNetworks (.ok files) = .ok ([], "") ∧
    ∀ d, status { netMap := [], defaultName := d } = .error "cni config uninitialized" := by
  constructor
  · show Except.ok (loadNetworksLoop (sortConfFiles files) [] "") = .ok ([], "")
    rw [loadNetworksLoop_all_none (sortConfFiles files) [] ""
      (fun fl hfl => h fl ((List.mem_insertionSort _).mp hfl))]
  · intro d
    rfl

theorem loadNetworks_no_parseable_witness :
    loadNetworks (.ok [⟨"00-invalid.conf", none⟩]) = .ok ([], "") ∧
    status { netMap := [], defaultName := "" } = .error "cni config uninitialized" := by
  have h := loadNetworks_no_parseable [⟨"00-invalid.conf", none⟩] (by decide)
  exact ⟨h.1, h.2 ""⟩

/-- C10: after a successful setUp of a pod with an explicit
attachment list (resolved interface names pairwise distinct per the
engine's uniqueness invariant), a networkStatus of the same pod
against the resulting attachment cache succeeds and returns exactly
the list of results setUp returned — one per attachment, deep-equal,
in the same order. -/
theorem getPodNetworkStatus_after_setUpPod (env : ExecEnv) (reg : Registry)
    (cacheDir : String) (pod : PodNetwork) (cache : Cache) (tr : List Invocation)
    (results : List NetResult) (cache' : Cache)
    (_hexp : pod.networks ≠ [])
    (h : setUpPod env reg cacheDir pod cache = ⟨tr, .ok results, cache'⟩)
    (hnd : ((resolvedAttachments reg pod).map (fun a => (a.name, a.ifname))).Nodup) :
    getPodNetworkStatus reg pod cache' = .ok results := by
  obtain ⟨hall, hlo, l, ins, hloop, hres, hcache⟩ := setUpPod_ok_inv h
  obtain ⟨hlen, hilen, hpt⟩ := setUpLoop_ok env cacheDir pod (resolvedAttachments reg pod)
    [] tr l ins hloop
  unfold getPodNetworkStatus
  rw [if_pos hall]
  apply exceptMapM_ok
  · rw [hres, List.length_map, hlen]
  · intro i a ha
    obtain ⟨rt, r, hb, he, hl, hins⟩ := hpt i a ha
    refine ⟨⟨a.name, a.ifname, r⟩, ?_, ?_⟩
    · rw [hres, List.get?_map, hl]
      rfl
    · unfold statusStep
      have hfind : cacheFind cache' a.name pod.id a.ifname = some (mkCacheEntry pod a r) := by
        rw [hcache, cacheFind_append]
        rw [cacheFind_aligned pod (resolvedAttachments reg pod) ins hilen
          (fun j b hjb => by
            obtain ⟨rt2, r2, _, _, _, hins2⟩ := hpt j b hjb
            exact ⟨r2, hins2⟩) hnd i a (mkCacheEntry pod a r) ha hins]
      rw [hfind]
      rfl

theorem getPodNetworkStatus_after_setUpPod_witness :
    getPodNetworkStatus sampleReg samplePod
      (setUpPod sampleEnv sampleReg "cd" samplePod []).cache = .ok c1Results :=
  getPodNetworkStatus_after_setUpPod sampleEnv sampleReg "cd" samplePod []
    (setUpPod sampleEnv sampleReg "cd" samplePod []).trace c1Results
    (setUpPod sampleEnv sampleReg "cd" samplePod []).cache
    (by decide) rfl (by decide)

end Ocicni
